import Mathlib

/-!
Verification of the task-tracking API core (Tag Utility, Task Record Model,
Task Service bulk delete) as a shallow embedding of the Python source in
`app/models/task_tags.py`, `app/models/task.py` and `app/blueprints/tasks.py`.

Task records are Python dictionaries; they are embedded as ordered
association lists over a `Value` type covering the field values the code
manipulates (strings, lists of tag strings, datetimes, booleans, None).
Python `datetime.now` is modelled by an abstract clock `Nat → Nat` read once
per call site, in call order.  Fallible operations return `Except`.
-/

/-- Python's ASCII whitespace characters, as recognised by `str.strip()`
(space, tab, newline, carriage return, vertical tab, form feed). -/
def isPySpace (c : Char) : Bool :=
  decide (c.toNat = 32) || decide (c.toNat = 9) || decide (c.toNat = 10) ||
  decide (c.toNat = 13) || decide (c.toNat = 11) || decide (c.toNat = 12)

/-- Python `str.strip()` on the underlying character list: drop leading and
trailing whitespace. -/
def pyStripList (l : List Char) : List Char :=
  ((l.dropWhile isPySpace).reverse.dropWhile isPySpace).reverse

/-- Python `str.strip()`. -/
def pyStrip (s : String) : String :=
  ⟨pyStripList s.data⟩

/-- Python `str.lower()` restricted to the basic latin letters the tag rules
allow (maps A–Z to a–z and leaves every other character unchanged). -/
def pyLower (s : String) : String :=
  ⟨s.data.map Char.toLower⟩

/-- Characters accepted by the tag pattern `^[a-zA-Z0-9_.-]+$` from
`TaskTags.TAG_PATTERN`. -/
def isTagChar (c : Char) : Bool :=
  (decide (65 ≤ c.toNat) && decide (c.toNat ≤ 90)) ||
  (decide (97 ≤ c.toNat) && decide (c.toNat ≤ 122)) ||
  (decide (48 ≤ c.toNat) && decide (c.toNat ≤ 57)) ||
  c == '_' || c == '.' || c == '-'

/-- Field values stored in a task dictionary. -/
inductive Value where
  | vstr : String → Value
  | vlist : List String → Value
  | vtime : Nat → Value
  | vbool : Bool → Value
  | vnone : Value
deriving DecidableEq

/-- A Python dictionary with string keys, as an insertion-ordered
association list (Python dictionaries preserve insertion order). -/
abbrev Dict := List (String × Value)

/-- Lookup of a key in an association list (first binding wins). -/
def alookup? {α : Type} : List (String × α) → String → Option α
  | [], _ => none
  | (k, v) :: rest, key => if k = key then some v else alookup? rest key

/-- Python `key in d`. -/
def ahasKey {α : Type} (d : List (String × α)) (k : String) : Bool :=
  (alookup? d k).isSome

/-- Python `d[k] = v`: replace the value in place if the key exists
(keeping its position), otherwise append a new binding. -/
def aset {α : Type} (d : List (String × α)) (k : String) (v : α) :
    List (String × α) :=
  if ahasKey d k then d.map (fun kv => if kv.1 = k then (k, v) else kv)
  else d ++ [(k, v)]

/-- Python `d.get(k)` with default `None`. -/
def pyGet (d : Dict) (k : String) : Value :=
  (alookup? d k).getD Value.vnone

/-- Python truthiness of a field value. -/
def truthy : Value → Bool
  | Value.vstr s => s ≠ ""
  | Value.vlist l => l ≠ []
  | Value.vtime _ => true
  | Value.vbool b => b
  | Value.vnone => false

/-- Keys of an association list are pairwise distinct; every Python
dictionary satisfies this. -/
def NodupKeys (d : Dict) : Prop :=
  (d.map Prod.fst).Nodup

instance nodupKeysDec (d : Dict) : Decidable (NodupKeys d) := by
  unfold NodupKeys
  infer_instance

/-- The `tags` binding of a record, if present, holds a list (as in every
record the tag utility itself produces). -/
def tagsWF (d : Dict) : Prop :=
  match alookup? d "tags" with
  | some (Value.vlist _) => True
  | some _ => False
  | none => True

/-- The `tags` list of a record, empty when the field is absent. -/
def tagsOf (d : Dict) : List String :=
  match alookup? d "tags" with
  | some (Value.vlist l) => l
  | _ => []

/-- Python exceptions raised by the embedded code. -/
inductive PyError where
  | valueError : String → PyError
  | attributeError : PyError
deriving DecidableEq

instance exceptDecEq {ε α : Type} [DecidableEq ε] [DecidableEq α] :
    DecidableEq (Except ε α) := fun a b =>
  match a, b with
  | Except.error e, Except.error f =>
    if h : e = f then isTrue (by rw [h]) else
      isFalse (by intro hc; cases hc; exact h rfl)
  | Except.error _, Except.ok _ => isFalse (by intro hc; cases hc)
  | Except.ok _, Except.error _ => isFalse (by intro hc; cases hc)
  | Except.ok x, Except.ok y =>
    if h : x = y then isTrue (by rw [h]) else
      isFalse (by intro hc; cases hc; exact h rfl)

/-- `TaskTags.MAX_TAG_LENGTH`. -/
def MAX_TAG_LENGTH : Nat := 50

/-- `TaskTags.validate_tag`: empty, overlong, whitespace-containing, or
pattern-violating tags are rejected with the source's `ValueError`
messages. -/
def TaskTags.validate_tag (tag : String) : Except String Unit :=
  if tag = "" then Except.error "Tag cannot be empty"
  else if tag.length > MAX_TAG_LENGTH then
    Except.error "Tag is too long (max 50 characters)"
  else if tag.data.contains ' ' || tag.data.contains '\t' ||
      tag.data.contains '\n' then
    Except.error "Tag contains invalid characters"
  else if !(decide (tag.data ≠ []) && tag.data.all isTagChar) then
    Except.error "Tag contains invalid characters"
  else Except.ok ()

/-- `TaskTags.normalize_tag`: falsy (empty) input is returned unchanged,
otherwise `tag.strip().lower()`. -/
def TaskTags.normalize_tag (tag : String) : String :=
  if tag = "" then tag else pyLower (pyStrip tag)

/-- `TaskTags.add_tag`: validate and normalize the tag, copy the record,
initialise `tags` when absent, copy the tag list, and append the normalized
tag when it is not already present.  A `tags` value that is not a list makes
the source's `.copy()` call raise `AttributeError`. -/
def TaskTags.add_tag (task_data : Dict) (tag : String) :
    Except PyError Dict :=
  if tag = "" then Except.error (PyError.valueError "Tag cannot be empty")
  else
    match TaskTags.validate_tag tag with
    | Except.error e => Except.error (PyError.valueError e)
    | Except.ok _ =>
      let normalized_tag := TaskTags.normalize_tag tag
      let result := task_data
      let result :=
        if ahasKey result "tags" then result
        else aset result "tags" (Value.vlist [])
      match alookup? result "tags" with
      | some (Value.vlist tags0) =>
        let tags :=
          if normalized_tag ∈ tags0 then tags0 else tags0 ++ [normalized_tag]
        Except.ok (aset result "tags" (Value.vlist tags))
      | some _ => Except.error PyError.attributeError
      | none => Except.error PyError.attributeError

/-- `TaskTags.remove_tag`: normalize the tag, copy the record; a record
without a `tags` field gets an empty one; otherwise the first occurrence of
the normalized tag is removed from a copy of the list. -/
def TaskTags.remove_tag (task_data : Dict) (tag : String) :
    Except PyError Dict :=
  if tag = "" then Except.error (PyError.valueError "Tag cannot be empty")
  else
    let normalized_tag := TaskTags.normalize_tag tag
    let result := task_data
    if ¬ ahasKey result "tags" then
      Except.ok (aset result "tags" (Value.vlist []))
    else
      match alookup? result "tags" with
      | some (Value.vlist tags0) =>
        let tags :=
          if normalized_tag ∈ tags0 then tags0.erase normalized_tag else tags0
        Except.ok (aset result "tags" (Value.vlist tags))
      | some _ => Except.error PyError.attributeError
      | none => Except.error PyError.attributeError

/-- The status enum values accepted by `Task.validate`. -/
def STATUS_LIST : List Value :=
  [Value.vstr "pending", Value.vstr "in_progress", Value.vstr "completed"]

/-- First `ValueError` message raised while the source's `for tag in tags`
loop calls `TaskTags.validate_tag`; the loop sits inside a single
`try/except`, so scanning stops at the first failure. -/
def firstTagError : List String → Option String
  | [] => none
  | t :: rest =>
    match TaskTags.validate_tag t with
    | Except.error e => some e
    | Except.ok _ => firstTagError rest

/-- `Task.validate`: error strings for a missing/falsy title, a truthy
status outside the enum, a non-list `tags` value, and the first invalid tag
(wrapped as `Invalid tag: ...`), appended in source order. -/
def Task.validate (data : Dict) : List String :=
  let e1 : List String :=
    if truthy (pyGet data "title") then [] else ["Title is required"]
  let e2 : List String :=
    if truthy (pyGet data "status") ∧ pyGet data "status" ∉ STATUS_LIST then
      ["Status must be one of: pending, in_progress, completed"]
    else []
  let e3 : List String :=
    if ahasKey data "tags" ∧ pyGet data "tags" ≠ Value.vnone then
      match pyGet data "tags" with
      | Value.vlist tags =>
        match firstTagError tags with
        | some msg => ["Invalid tag: " ++ msg]
        | none => []
      | _ => ["Tags must be a list"]
    else []
  e1 ++ e2 ++ e3

/-- `Task.create`: the two `datetime.now(timezone.utc)` calls are modelled
as two successive readings `clock 0` and `clock 1` of an abstract clock, in
evaluation order (`created_at` first).  `description or ''` and `tags or []`
keep a truthy argument and otherwise substitute the default. -/
def Task.create (title description status tags : Value)
    (clock : Nat → Nat) : Dict :=
  [("title", title),
   ("description", if truthy description then description else Value.vstr ""),
   ("status", status),
   ("tags", if truthy tags then tags else Value.vlist []),
   ("created_at", Value.vtime (clock 0)),
   ("updated_at", Value.vtime (clock 1))]

/-- `Task.update_fields` allow-list. -/
def allowed_fields : List String := ["title", "description", "status", "tags"]

/-- `Task.update_fields`: keep the allow-listed entries whose value is not
`None`, then stamp `updated_at` with a fresh clock reading. -/
def Task.update_fields (data : Dict) (now : Nat) : Dict :=
  let update_data :=
    data.filter (fun kv => allowed_fields.contains kv.1 &&
      !(kv.2 == Value.vnone))
  aset update_data "updated_at" (Value.vtime now)

/-- Hexadecimal digits accepted inside a BSON `ObjectId` string. -/
def isHexChar (c : Char) : Bool :=
  (decide (48 ≤ c.toNat) && decide (c.toNat ≤ 57)) ||
  (decide (97 ≤ c.toNat) && decide (c.toNat ≤ 102)) ||
  (decide (65 ≤ c.toNat) && decide (c.toNat ≤ 70))

/-- A string parses as a BSON `ObjectId` exactly when it is 24 hexadecimal
characters; on anything else the `ObjectId` constructor raises
`InvalidId`. -/
def isValidObjectId (s : String) : Bool :=
  decide (s.length = 24) && s.data.all isHexChar

/-- The persisted task collection, reduced to the list of stored `_id`
strings (the only data `bulk_delete_tasks` touches). -/
abbrev DB := List String

/-- `mongo.db.tasks.delete_one({'_id': ObjectId(oid)})`: remove at most one
matching document and report how many were deleted. -/
def deleteOne (db : DB) (oid : String) : DB × Nat :=
  if oid ∈ db then (db.erase oid, 1) else (db, 0)

/-- Observable outcome of the bulk-delete endpoint: the 400 missing-field
response, the 200 response carrying `deleted_count`, or an exception
escaping the handler (no `try/except` wraps the loop), each together with
the database state left behind. -/
inductive BulkResult where
  | missingField
  | ok (db : DB) (deletedCount : Nat)
  | invalidIdRaised (db : DB)
  | typeErrorRaised (db : DB)
deriving DecidableEq

/-- The `for task_id in task_ids` loop of `bulk_delete_tasks`: each id is
parsed unconditionally; the first unparsable id raises `InvalidId` out of
the handler, keeping the deletions already performed. -/
def bulkLoop : List String → DB → Nat → BulkResult
  | [], db, count => BulkResult.ok db count
  | tid :: rest, db, count =>
    if isValidObjectId tid then
      bulkLoop rest (deleteOne db tid).1 (count + (deleteOne db tid).2)
    else BulkResult.invalidIdRaised db

/-- `bulk_delete_tasks`: 400 when `task_ids` is absent; otherwise iterate
the value (a non-list, non-string value is not iterable and raises
`TypeError`; a string iterates its characters). -/
def bulk_delete_tasks (data : Dict) (db : DB) : BulkResult :=
  if ¬ ahasKey data "task_ids" then BulkResult.missingField
  else
    match pyGet data "task_ids" with
    | Value.vlist ids => bulkLoop ids db 0
    | Value.vstr s => bulkLoop (s.data.map Char.toString) db 0
    | _ => BulkResult.typeErrorRaised db

/-- Heap values: like `Value`, but a list field is a reference to a mutable
list object in the heap, matching Python's shallow `dict.copy()`. -/
inductive HVal where
  | hstr : String → HVal
  | hlistRef : Nat → HVal
  | htime : Nat → HVal
  | hbool : Bool → HVal
  | hnone : HVal
deriving DecidableEq

/-- A dictionary object in the heap. -/
abbrev HDict := List (String × HVal)

/-- The mutable store backing the tag operations: dictionary objects and
list objects, addressed by index; allocation appends. -/
structure Heap where
  dicts : List HDict
  lists : List (List String)
deriving DecidableEq

def Heap.getDict (h : Heap) (a : Nat) : HDict := h.dicts.getD a []

def Heap.getList (h : Heap) (a : Nat) : List String := h.lists.getD a []

/-- In-place update `d[k] = v` of the dictionary object at address `a`. -/
def Heap.setDictKey (h : Heap) (a : Nat) (k : String) (v : HVal) : Heap :=
  { h with dicts := h.dicts.set a (aset (h.getDict a) k v) }

/-- In-place replacement of the contents of the list object at address `a`
(the effect of `append` / `remove` on that object). -/
def Heap.setList (h : Heap) (a : Nat) (l : List String) : Heap :=
  { h with lists := h.lists.set a l }

/-- Allocate a fresh dictionary object (`dict.copy()` result). -/
def Heap.allocDict (h : Heap) (d : HDict) : Heap × Nat :=
  ({ h with dicts := h.dicts ++ [d] }, h.dicts.length)

/-- Allocate a fresh list object (`list.copy()` result or a new `[]`). -/
def Heap.allocList (h : Heap) (l : List String) : Heap × Nat :=
  ({ h with lists := h.lists ++ [l] }, h.lists.length)

/-- Dereference a heap value to its observable `Value`. -/
def Heap.readVal (h : Heap) : HVal → Value
  | HVal.hstr s => Value.vstr s
  | HVal.hlistRef a => Value.vlist (h.getList a)
  | HVal.htime n => Value.vtime n
  | HVal.hbool b => Value.vbool b
  | HVal.hnone => Value.vnone

/-- The observable value of the dictionary object at address `a`, with its
list references dereferenced. -/
def Heap.readDict (h : Heap) (a : Nat) : Dict :=
  (h.getDict a).map (fun kv => (kv.1, h.readVal kv.2))

/-- Every list reference stored in the dictionary at `a` points inside the
heap. -/
def dictRefsWF (h : Heap) (a : Nat) : Prop :=
  ∀ k la, (k, HVal.hlistRef la) ∈ h.getDict a → la < h.lists.length

/-- `TaskTags.add_tag` against the mutable heap, step for step: shallow-copy
the record, initialise `tags` with a fresh empty list when absent, copy the
tag list, append to the copy when the tag is new, and rebind `tags` in the
copied record only. -/
def TaskTags.add_tag_st (h : Heap) (taskAddr : Nat) (tag : String) :
    Heap × Except PyError Nat :=
  if tag = "" then (h, Except.error (PyError.valueError "Tag cannot be empty"))
  else
    match TaskTags.validate_tag tag with
    | Except.error e => (h, Except.error (PyError.valueError e))
    | Except.ok _ =>
      let normalized_tag := TaskTags.normalize_tag tag
      let p1 := h.allocDict (h.getDict taskAddr)
      let h1 := p1.1
      let resAddr := p1.2
      let h2 :=
        if ahasKey (h1.getDict resAddr) "tags" then h1
        else
          let p2 := h1.allocList []
          Heap.setDictKey p2.1 resAddr "tags" (HVal.hlistRef p2.2)
      match alookup? (h2.getDict resAddr) "tags" with
      | some (HVal.hlistRef la) =>
        let tags0 := h2.getList la
        let p3 := h2.allocList tags0
        let h3 := p3.1
        let copyAddr := p3.2
        let h4 :=
          if normalized_tag ∈ tags0 then h3
          else h3.setList copyAddr (tags0 ++ [normalized_tag])
        let h5 := h4.setDictKey resAddr "tags" (HVal.hlistRef copyAddr)
        (h5, Except.ok resAddr)
      | some _ => (h2, Except.error PyError.attributeError)
      | none => (h2, Except.error PyError.attributeError)

/-- `TaskTags.remove_tag` against the mutable heap, step for step. -/
def TaskTags.remove_tag_st (h : Heap) (taskAddr : Nat) (tag : String) :
    Heap × Except PyError Nat :=
  if tag = "" then (h, Except.error (PyError.valueError "Tag cannot be empty"))
  else
    let normalized_tag := TaskTags.normalize_tag tag
    let p1 := h.allocDict (h.getDict taskAddr)
    let h1 := p1.1
    let resAddr := p1.2
    if ¬ ahasKey (h1.getDict resAddr) "tags" then
      let p2 := h1.allocList []
      (Heap.setDictKey p2.1 resAddr "tags" (HVal.hlistRef p2.2),
        Except.ok resAddr)
    else
      match alookup? (h1.getDict resAddr) "tags" with
      | some (HVal.hlistRef la) =>
        let tags0 := h1.getList la
        let p3 := h1.allocList tags0
        let h3 := p3.1
        let copyAddr := p3.2
        let h4 :=
          if normalized_tag ∈ tags0 then
            h3.setList copyAddr (tags0.erase normalized_tag)
          else h3
        let h5 := h4.setDictKey resAddr "tags" (HVal.hlistRef copyAddr)
        (h5, Except.ok resAddr)
      | some _ => (h1, Except.error PyError.attributeError)
      | none => (h1, Except.error PyError.attributeError)

/-- Heap evolution that leaves every pre-existing object untouched:
allocations append, mutations hit only fresh addresses. -/
structure HeapLe (h h2 : Heap) : Prop where
  dlen : h.dicts.length ≤ h2.dicts.length
  llen : h.lists.length ≤ h2.lists.length
  dget : ∀ i, i < h.dicts.length → h2.dicts[i]? = h.dicts[i]?
  lget : ∀ i, i < h.lists.length → h2.lists[i]? = h.lists[i]?

theorem alookup_eq_none {α : Type} (d : List (String × α)) (k : String)
    (h : k ∉ d.map Prod.fst) : alookup? d k = none := by
  induction d with
  | nil => rfl
  | cons kv rest ih =>
    obtain ⟨k0, v0⟩ := kv
    simp only [List.map_cons, List.mem_cons] at h
    push_neg at h
    have hne : ¬ (k0 = k) := fun hk => h.1 hk.symm
    simp only [alookup?, if_neg hne]
    exact ih h.2

theorem alookup_append {α : Type} (a b : List (String × α)) (k : String) :
    alookup? (a ++ b) k =
      match alookup? a k with
      | some v => some v
      | none => alookup? b k := by
  induction a with
  | nil => rfl
  | cons kv rest ih =>
    by_cases hk : kv.1 = k
    · simp only [List.cons_append, alookup?, if_pos hk]
    · simp only [List.cons_append, alookup?, if_neg hk]
      exact ih

theorem amap_replace_eq_of_not_mem {α : Type} (d : List (String × α))
    (k : String) (v : α) (h : k ∉ d.map Prod.fst) :
    d.map (fun kv => if kv.1 = k then (k, v) else kv) = d := by
  induction d with
  | nil => rfl
  | cons kv rest ih =>
    obtain ⟨k0, v0⟩ := kv
    simp only [List.map_cons, List.mem_cons] at h
    push_neg at h
    have hne : ¬ (k0 = k) := fun hk => h.1 hk.symm
    simp only [List.map_cons, if_neg hne]
    rw [ih h.2]

theorem alookup_aset_self {α : Type} (d : List (String × α)) (k : String)
    (v : α) : alookup? (aset d k v) k = some v := by
  unfold aset
  by_cases h : ahasKey d k = true
  · rw [if_pos h]
    unfold ahasKey at h
    induction d with
    | nil => simp [alookup?] at h
    | cons kv rest ih =>
      obtain ⟨k0, v0⟩ := kv
      by_cases hk : k0 = k
      · have hhead : (if (k0, v0).1 = k then (k, v) else (k0, v0)) = (k, v) := by
          simp [hk]
        rw [List.map_cons, hhead]
        simp [alookup?]
      · have hhead : (if (k0, v0).1 = k then (k, v) else (k0, v0)) = (k0, v0) := by
          simp [hk]
        simp only [alookup?, if_neg hk] at h
        rw [List.map_cons, hhead]
        simp only [alookup?, if_neg hk]
        exact ih h
  · rw [if_neg h]
    rw [alookup_append]
    have hn : alookup? d k = none := by
      unfold ahasKey at h
      cases hl : alookup? d k with
      | none => rfl
      | some v2 => rw [hl] at h; simp at h
    rw [hn]
    simp [alookup?]

theorem alookup_aset_other {α : Type} (d : List (String × α))
    (k k2 : String) (v : α) (hne : k2 ≠ k) :
    alookup? (aset d k v) k2 = alookup? d k2 := by
  unfold aset
  by_cases h : ahasKey d k = true
  · rw [if_pos h]
    clear h
    induction d with
    | nil => rfl
    | cons kv rest ih =>
      obtain ⟨k0, v0⟩ := kv
      by_cases hk : k0 = k
      · have hne2 : ¬ (k = k2) := fun hc => hne hc.symm
        have hne3 : ¬ (k0 = k2) := by rw [hk]; exact hne2
        have hhead : (if (k0, v0).1 = k then (k, v) else (k0, v0)) = (k, v) := by
          simp [hk]
        rw [List.map_cons, hhead]
        simp only [alookup?, if_neg hne2, if_neg hne3]
        exact ih
      · have hhead : (if (k0, v0).1 = k then (k, v) else (k0, v0)) = (k0, v0) := by
          simp [hk]
        rw [List.map_cons, hhead]
        simp only [alookup?]
        by_cases hk2 : k0 = k2
        · rw [if_pos hk2, if_pos hk2]
        · rw [if_neg hk2, if_neg hk2]
          exact ih
  · rw [if_neg h, alookup_append]
    cases hl : alookup? d k2 with
    | some v2 => rfl
    | none =>
      have hne2 : ¬ (k = k2) := fun hc => hne hc.symm
      simp [alookup?, if_neg hne2]

theorem aset_self {α : Type} (d : List (String × α)) (k : String) (v : α)
    (hnd : (d.map Prod.fst).Nodup) (hv : alookup? d k = some v) :
    aset d k v = d := by
  have hh : ahasKey d k = true := by unfold ahasKey; rw [hv]; rfl
  unfold aset
  rw [if_pos hh]
  clear hh
  induction d with
  | nil => rfl
  | cons kv rest ih =>
    obtain ⟨k0, v0⟩ := kv
    simp only [List.map_cons, List.nodup_cons] at hnd
    by_cases hk : k0 = k
    · simp only [alookup?, if_pos hk] at hv
      injection hv with hv0
      simp only [List.map_cons, if_pos hk]
      rw [amap_replace_eq_of_not_mem rest k v (by rw [← hk]; exact hnd.1)]
      rw [← hk, ← hv0]
    · simp only [alookup?, if_neg hk] at hv
      simp only [List.map_cons, if_neg hk]
      rw [ih hnd.2 hv]

theorem alookup_filter (d : Dict) (p : String × Value → Bool) (k : String)
    (hnd : NodupKeys d) :
    alookup? (d.filter p) k =
      match alookup? d k with
      | some v => if p (k, v) then some v else none
      | none => none := by
  induction d with
  | nil => rfl
  | cons kv rest ih =>
    obtain ⟨k0, v0⟩ := kv
    unfold NodupKeys at hnd
    simp only [List.map_cons, List.nodup_cons] at hnd
    have ihr := ih hnd.2
    by_cases hk : k0 = k
    · have hrest : alookup? rest k = none := by
        apply alookup_eq_none
        rw [← hk]
        exact hnd.1
      subst hk
      by_cases hp : p (k0, v0) = true
      · rw [List.filter_cons_of_pos hp]
        simp [alookup?, hp]
      · rw [List.filter_cons_of_neg (by simpa using hp)]
        rw [ihr, hrest]
        simp [alookup?, hp]
    · by_cases hp : p (k0, v0) = true
      · rw [List.filter_cons_of_pos hp]
        simp only [alookup?, if_neg hk]
        exact ihr
      · rw [List.filter_cons_of_neg (by simpa using hp)]
        simp only [alookup?, if_neg hk]
        exact ihr

theorem validate_ok_ne (t : String)
    (h : TaskTags.validate_tag t = Except.ok ()) : t ≠ "" := by
  intro he
  subst he
  simp [TaskTags.validate_tag] at h

theorem tagsOf_aset (d : Dict) (l : List String) :
    tagsOf (aset d "tags" (Value.vlist l)) = l := by
  unfold tagsOf
  rw [alookup_aset_self]

theorem tagsWF_aset (d : Dict) (l : List String) :
    tagsWF (aset d "tags" (Value.vlist l)) := by
  unfold tagsWF
  rw [alookup_aset_self]
  trivial

theorem add_tag_ok (task : Dict) (tag : String)
    (hv : TaskTags.validate_tag tag = Except.ok ()) (hwf : tagsWF task) :
    TaskTags.add_tag task tag =
      Except.ok (aset
        (if ahasKey task "tags" then task
          else aset task "tags" (Value.vlist []))
        "tags"
        (Value.vlist
          (if TaskTags.normalize_tag tag ∈ tagsOf task then tagsOf task
            else tagsOf task ++ [TaskTags.normalize_tag tag]))) := by
  have hne := validate_ok_ne tag hv
  unfold TaskTags.add_tag
  rw [if_neg hne, hv]
  unfold tagsWF at hwf
  by_cases hk : ahasKey task "tags" = true
  · cases hl : alookup? task "tags" with
    | none => rw [ahasKey, hl] at hk; simp at hk
    | some v =>
      rw [hl] at hwf
      cases v with
      | vlist l =>
        have hT : tagsOf task = l := by unfold tagsOf; rw [hl]
        simp only [if_pos hk, hl, hT]
      | vstr s => exact absurd hwf (by simp)
      | vtime n => exact absurd hwf (by simp)
      | vbool b => exact absurd hwf (by simp)
      | vnone => exact absurd hwf (by simp)
  · have hk2 : ahasKey task "tags" = false := by
      cases hb : ahasKey task "tags" with
      | true => exact absurd hb hk
      | false => rfl
    have hl : alookup? task "tags" = none := by
      unfold ahasKey at hk2
      cases hq : alookup? task "tags" with
      | none => rfl
      | some v => rw [hq] at hk2; simp at hk2
    have hT : tagsOf task = [] := by unfold tagsOf; rw [hl]
    simp only [if_neg hk, alookup_aset_self, hT]

theorem tagsOf_add_tag (task : Dict) (tag : String)
    (hv : TaskTags.validate_tag tag = Except.ok ()) (hwf : tagsWF task) :
    ∃ d1, TaskTags.add_tag task tag = Except.ok d1 ∧
      tagsOf d1 =
        (if TaskTags.normalize_tag tag ∈ tagsOf task then tagsOf task
          else tagsOf task ++ [TaskTags.normalize_tag tag]) ∧
      tagsWF d1 :=
  ⟨_, add_tag_ok task tag hv hwf, tagsOf_aset _ _, tagsWF_aset _ _⟩

/-- Claim C1: adding two case-variant spellings of one valid tag leaves
exactly one occurrence of the normalized form in the `tags` list (its
pre-state count being at most one, per the record invariant of §3), and
adding a tag whose normalized form is already present leaves the `tags`
list unchanged. -/
theorem add_tag_case_fold_idempotent (task : Dict) (t1 t2 : String)
    (hwf : tagsWF task)
    (h1 : TaskTags.validate_tag t1 = Except.ok ())
    (h2 : TaskTags.validate_tag t2 = Except.ok ())
    (heq : TaskTags.normalize_tag t1 = TaskTags.normalize_tag t2)
    (hcnt : (tagsOf task).count (TaskTags.normalize_tag t1) ≤ 1) :
    (∃ d1 d2, TaskTags.add_tag task t1 = Except.ok d1 ∧
      TaskTags.add_tag d1 t2 = Except.ok d2 ∧
      (tagsOf d2).count (TaskTags.normalize_tag t1) = 1) ∧
    (∀ d1, TaskTags.add_tag task t1 = Except.ok d1 →
      TaskTags.normalize_tag t1 ∈ tagsOf task → tagsOf d1 = tagsOf task) := by
  obtain ⟨d1, hd1, ht1, hw1⟩ := tagsOf_add_tag task t1 h1 hwf
  obtain ⟨d2, hd2, ht2, _⟩ := tagsOf_add_tag d1 t2 h2 hw1
  constructor
  · refine ⟨d1, d2, hd1, hd2, ?_⟩
    rw [ht2, ← heq]
    by_cases hm : TaskTags.normalize_tag t1 ∈ tagsOf task
    · rw [if_pos hm] at ht1
      rw [ht1, if_pos hm]
      have hpos : 0 < (tagsOf task).count (TaskTags.normalize_tag t1) :=
        List.count_pos_iff.mpr hm
      omega
    · rw [if_neg hm] at ht1
      have hmem : TaskTags.normalize_tag t1 ∈ tagsOf d1 := by
        rw [ht1]
        exact List.mem_append_right _ (List.mem_singleton.mpr rfl)
      rw [if_pos hmem, ht1, List.count_append]
      rw [List.count_eq_zero.mpr hm]
      simp
  · intro d1b hd1b hmem
    rw [hd1] at hd1b
    injection hd1b with hEq
    rw [← hEq, ht1, if_pos hmem]

/-- Witness for `add_tag_case_fold_idempotent` at a concrete record and a
pair of concrete spellings. -/
theorem add_tag_case_fold_idempotent_check :
    (∃ d1 d2,
      TaskTags.add_tag [("tags", Value.vlist ["done"])] "Urgent"
        = Except.ok d1 ∧
      TaskTags.add_tag d1 "urgent" = Except.ok d2 ∧
      (tagsOf d2).count (TaskTags.normalize_tag "Urgent") = 1) ∧
    (∀ d1,
      TaskTags.add_tag [("tags", Value.vlist ["done"])] "Urgent"
        = Except.ok d1 →
      TaskTags.normalize_tag "Urgent" ∈ tagsOf [("tags", Value.vlist ["done"])] →
      tagsOf d1 = tagsOf [("tags", Value.vlist ["done"])]) :=
  add_tag_case_fold_idempotent [("tags", Value.vlist ["done"])] "Urgent"
    "urgent" trivial (by decide) (by decide) (by decide) (by decide)

/-- Claim C2 (counterexample): removing an absent tag from a record that has
no `tags` field does not return a record equal to the input; the result
gains a `tags` binding the input does not have. -/
theorem remove_absent_without_tags_field_not_equal :
    TaskTags.remove_tag [("title", Value.vstr "x")] "missing-tag"
      = Except.ok [("title", Value.vstr "x"), ("tags", Value.vlist [])] ∧
    ahasKey [("title", Value.vstr "x")] "tags" = false ∧
    ahasKey [("title", Value.vstr "x"), ("tags", Value.vlist [])] "tags"
      = true := by
  refine ⟨by decide, by decide, by decide⟩

/-- Claim C2 (amended): for a non-empty tag whose normalized form is absent,
`remove_tag` returns a record equal to the input when the input has a
`tags` field; when the field is absent, it returns the input extended with
an empty `tags` field. -/
theorem remove_absent_tag_amended (task : Dict) (tag : String)
    (hne : tag ≠ "") (hnd : NodupKeys task) (hwf : tagsWF task)
    (habs : TaskTags.normalize_tag tag ∉ tagsOf task) :
    (ahasKey task "tags" = true →
      TaskTags.remove_tag task tag = Except.ok task) ∧
    (ahasKey task "tags" = false →
      TaskTags.remove_tag task tag
        = Except.ok (task ++ [("tags", Value.vlist [])])) := by
  unfold TaskTags.remove_tag
  rw [if_neg hne]
  unfold tagsWF at hwf
  constructor
  · intro hk
    rw [if_neg (by simp [hk])]
    cases hl : alookup? task "tags" with
    | none => rw [ahasKey, hl] at hk; simp at hk
    | some v =>
      rw [hl] at hwf
      cases v with
      | vlist l =>
        have hT : tagsOf task = l := by unfold tagsOf; rw [hl]
        rw [hT] at habs
        simp only [if_neg habs]
        rw [aset_self task "tags" (Value.vlist l) hnd hl]
      | vstr s => exact absurd hwf (by simp)
      | vtime n => exact absurd hwf (by simp)
      | vbool b => exact absurd hwf (by simp)
      | vnone => exact absurd hwf (by simp)
  · intro hk
    rw [if_pos (by simp [hk])]
    unfold aset
    rw [if_neg (by simp [hk])]

/-- Witness for `remove_absent_tag_amended` at a concrete record. -/
theorem remove_absent_tag_amended_check :
    TaskTags.remove_tag [("tags", Value.vlist ["a"])] "zzz"
      = Except.ok [("tags", Value.vlist ["a"])] :=
  (remove_absent_tag_amended [("tags", Value.vlist ["a"])] "zzz" (by decide)
    (by decide) trivial (by decide)).1 (by decide)

/-- Claim C9: calling `remove_tag` with an empty tag raises
`ValueError("Tag cannot be empty")` for every task record, instead of
being a no-op. -/
theorem remove_tag_empty_raises (task : Dict) :
    TaskTags.remove_tag task "" =
      Except.error (PyError.valueError "Tag cannot be empty") := by
  unfold TaskTags.remove_tag
  rw [if_pos rfl]

theorem contains_iff_mem (l : List Char) (c : Char) :
    l.contains c = true ↔ c ∈ l := by
  simp

/-- Claim C6: every non-empty string of length at most 50 built only from
characters in [a-zA-Z0-9_.-] passes tag validation, and its normal form is
exactly `strip` then `lower`; every string containing a space, tab or
newline fails validation. -/
theorem valid_tag_accepted_and_normalized :
    (∀ t : String, t ≠ "" → t.length ≤ 50 → t.data.all isTagChar = true →
      TaskTags.validate_tag t = Except.ok () ∧
      TaskTags.normalize_tag t = pyLower (pyStrip t)) ∧
    (∀ t : String, (' ' ∈ t.data ∨ '\t' ∈ t.data ∨ '\n' ∈ t.data) →
      ∃ e, TaskTags.validate_tag t = Except.error e) := by
  constructor
  · intro t hne hlen hall
    constructor
    · unfold TaskTags.validate_tag
      rw [if_neg hne]
      have hlen2 : ¬ (t.length > MAX_TAG_LENGTH) := by
        unfold MAX_TAG_LENGTH
        omega
      rw [if_neg hlen2]
      have hnotws : ∀ c : Char, c ∈ t.data → isTagChar c = true →
          c ≠ ' ' ∧ c ≠ '\t' ∧ c ≠ '\n' := by
        intro c _ hc
        refine ⟨?_, ?_, ?_⟩ <;> intro he <;> subst he <;> simp [isTagChar] at hc
      have hws : ¬ ((t.data.contains ' ' || t.data.contains '\t' ||
          t.data.contains '\n') = true) := by
        intro hcon
        rcases Bool.or_eq_true_iff.mp hcon with hcon2 | h3
        · rcases Bool.or_eq_true_iff.mp hcon2 with h1 | h2
          · have hm := (contains_iff_mem _ _).mp h1
            exact ((hnotws _ hm (List.all_eq_true.mp hall _ hm)).1) rfl
          · have hm := (contains_iff_mem _ _).mp h2
            exact ((hnotws _ hm (List.all_eq_true.mp hall _ hm)).2.1) rfl
        · have hm := (contains_iff_mem _ _).mp h3
          exact ((hnotws _ hm (List.all_eq_true.mp hall _ hm)).2.2) rfl
      rw [if_neg hws]
      have hdata : t.data ≠ [] := by
        intro hd
        exact hne (String.ext (hd.trans rfl))
      have hpat : ¬ ((!(decide (t.data ≠ []) && t.data.all isTagChar))
          = true) := by
        simp [hdata, hall]
      rw [if_neg hpat]
    · unfold TaskTags.normalize_tag
      rw [if_neg hne]
  · intro t hmem
    have hne : t ≠ "" := by
      intro he
      subst he
      rcases hmem with h | h | h <;> exact absurd h (by decide)
    unfold TaskTags.validate_tag
    rw [if_neg hne]
    by_cases hlen : t.length > MAX_TAG_LENGTH
    · rw [if_pos hlen]
      exact ⟨_, rfl⟩
    · rw [if_neg hlen]
      have hws : (t.data.contains ' ' || t.data.contains '\t' ||
          t.data.contains '\n') = true := by
        rcases hmem with h | h | h
        · exact Bool.or_eq_true_iff.mpr (Or.inl (Bool.or_eq_true_iff.mpr
            (Or.inl ((contains_iff_mem _ _).mpr h))))
        · exact Bool.or_eq_true_iff.mpr (Or.inl (Bool.or_eq_true_iff.mpr
            (Or.inr ((contains_iff_mem _ _).mpr h))))
        · exact Bool.or_eq_true_iff.mpr (Or.inr ((contains_iff_mem _ _).mpr h))
      rw [if_pos hws]
      exact ⟨_, rfl⟩

/-- Witness for `valid_tag_accepted_and_normalized` at concrete tags. -/
theorem valid_tag_accepted_and_normalized_check :
    (TaskTags.validate_tag "Tag-1.x" = Except.ok () ∧
      TaskTags.normalize_tag "Tag-1.x" = pyLower (pyStrip "Tag-1.x")) ∧
    (∃ e, TaskTags.validate_tag "a b" = Except.error e) :=
  ⟨valid_tag_accepted_and_normalized.1 "Tag-1.x" (by decide) (by decide)
      (by decide),
    valid_tag_accepted_and_normalized.2 "a b" (Or.inl (by decide))⟩

theorem toNat_ofNat_valid {n : Nat} (h : n.isValidChar) :
    (Char.ofNat n).toNat = n := by
  simp [Char.ofNat, h, Char.ofNatAux, Char.toNat, UInt32.toNat,
    BitVec.toNat_ofNatLt]

theorem toLower_toLower (c : Char) :
    Char.toLower (Char.toLower c) = Char.toLower c := by
  unfold Char.toLower
  by_cases h : c.toNat >= 65 ∧ c.toNat <= 90
  · rw [if_pos h]
    have hv : (c.toNat + 32).isValidChar := by
      left
      have := h.2
      omega
    have ht : (Char.ofNat (c.toNat + 32)).toNat = c.toNat + 32 :=
      toNat_ofNat_valid hv
    rw [ht]
    have hn : ¬ (c.toNat + 32 >= 65 ∧ c.toNat + 32 <= 90) := by omega
    rw [if_neg hn]
  · rw [if_neg h, if_neg h]

theorem isPySpace_toLower (c : Char) :
    isPySpace (Char.toLower c) = isPySpace c := by
  unfold Char.toLower
  by_cases h : c.toNat >= 65 ∧ c.toNat <= 90
  · rw [if_pos h]
    have hv : (c.toNat + 32).isValidChar := by
      left
      have := h.2
      omega
    have ht : (Char.ofNat (c.toNat + 32)).toNat = c.toNat + 32 :=
      toNat_ofNat_valid hv
    rw [Bool.eq_iff_iff]
    simp only [isPySpace, Bool.or_eq_true, decide_eq_true_eq, ht]
    omega
  · rw [if_neg h]

theorem pyLower_data (s : String) :
    (pyLower s).data = s.data.map Char.toLower := rfl

theorem pyStrip_data (s : String) :
    (pyStrip s).data = pyStripList s.data := rfl

theorem pyLower_pyLower (s : String) : pyLower (pyLower s) = pyLower s := by
  apply String.ext
  show (s.data.map Char.toLower).map Char.toLower = s.data.map Char.toLower
  rw [List.map_map]
  exact List.map_congr_left (fun a _ => toLower_toLower a)

theorem dropWhile_dropWhile (p : Char → Bool) (l : List Char) :
    (l.dropWhile p).dropWhile p = l.dropWhile p := by
  induction l with
  | nil => rfl
  | cons b rest ih =>
    rw [List.dropWhile_cons]
    by_cases hb : p b = true
    · rw [if_pos hb]
      exact ih
    · rw [if_neg hb, List.dropWhile_cons, if_neg hb]

theorem dropWhile_eq_self_of_prefix (p : Char → Bool) (x y : List Char)
    (hx : x.dropWhile p = x) (hpre : y <+: x) : y.dropWhile p = y := by
  cases y with
  | nil => rfl
  | cons b y2 =>
    obtain ⟨t, ht⟩ := hpre
    have hxb : x = b :: (y2 ++ t) := ht.symm
    have hb : ¬ p b = true := by
      intro hpb
      rw [hxb, List.dropWhile_cons, if_pos hpb] at hx
      have hlen : (List.dropWhile p (y2 ++ t)).length ≤ (y2 ++ t).length :=
        (List.dropWhile_suffix p).length_le
      rw [hx] at hlen
      simp at hlen
    rw [List.dropWhile_cons, if_neg hb]

theorem stripList_stripList (l : List Char) :
    pyStripList (pyStripList l) = pyStripList l := by
  unfold pyStripList
  have f1 : List.dropWhile isPySpace (List.dropWhile isPySpace l)
      = List.dropWhile isPySpace l := dropWhile_dropWhile _ _
  have hpre : ((List.dropWhile isPySpace l).reverse.dropWhile
      isPySpace).reverse <+: List.dropWhile isPySpace l := by
    have h1 : List.dropWhile isPySpace ((List.dropWhile isPySpace l).reverse)
        <:+ (List.dropWhile isPySpace l).reverse :=
      List.dropWhile_suffix isPySpace
    have h2 := List.reverse_prefix.mpr h1
    rwa [List.reverse_reverse] at h2
  have f2 := dropWhile_eq_self_of_prefix isPySpace _ _ f1 hpre
  rw [f2, List.reverse_reverse, dropWhile_dropWhile]

theorem stripList_map_toLower (l : List Char) :
    pyStripList (l.map Char.toLower) = (pyStripList l).map Char.toLower := by
  unfold pyStripList
  have hfun : (isPySpace ∘ Char.toLower) = isPySpace :=
    funext (fun c => isPySpace_toLower c)
  rw [List.dropWhile_map, hfun, ← List.map_reverse, List.dropWhile_map,
    hfun, ← List.map_reverse]

theorem pyStrip_pyStrip (s : String) : pyStrip (pyStrip s) = pyStrip s := by
  apply String.ext
  show pyStripList (pyStripList s.data) = pyStripList s.data
  exact stripList_stripList s.data

theorem pyStrip_pyLower (s : String) :
    pyStrip (pyLower s) = pyLower (pyStrip s) := by
  apply String.ext
  show pyStripList (s.data.map Char.toLower)
      = (pyStripList s.data).map Char.toLower
  exact stripList_map_toLower s.data

/-- Claim C10: `normalize_tag` is idempotent, so a tag already stored in
normalized form is unchanged by re-normalization. -/
theorem normalize_tag_idempotent (t : String) :
    TaskTags.normalize_tag (TaskTags.normalize_tag t)
      = TaskTags.normalize_tag t := by
  by_cases h : t = ""
  · subst h
    rfl
  · have hx : TaskTags.normalize_tag t = pyLower (pyStrip t) := by
      unfold TaskTags.normalize_tag
      rw [if_neg h]
    rw [hx]
    by_cases h2 : pyLower (pyStrip t) = ""
    · rw [h2]
      rfl
    · have hy : TaskTags.normalize_tag (pyLower (pyStrip t))
          = pyLower (pyStrip (pyLower (pyStrip t))) := by
        unfold TaskTags.normalize_tag
        rw [if_neg h2]
      rw [hy, pyStrip_pyLower, pyStrip_pyStrip, pyLower_pyLower]

theorem firstTagError_eq_none (l : List String) :
    firstTagError l = none ↔
      ∀ t ∈ l, TaskTags.validate_tag t = Except.ok () := by
  induction l with
  | nil => simp [firstTagError]
  | cons t rest ih =>
    cases hv : TaskTags.validate_tag t with
    | error e =>
      simp only [firstTagError, hv]
      constructor
      · intro h
        cases h
      · intro h
        have := h t (List.mem_cons_self _ _)
        rw [hv] at this
        cases this
    | ok u =>
      cases u
      simp only [firstTagError, hv]
      rw [ih]
      constructor
      · intro h t2 hm
        rcases List.mem_cons.mp hm with hm2 | hm2
        · rw [hm2]
          exact hv
        · exact h t2 hm2
      · intro h t2 hm
        exact h t2 (List.mem_cons_of_mem _ hm)

theorem firstTagError_first (pre : List String) (t1 : String)
    (post : List String) (msg : String)
    (hpre : ∀ t ∈ pre, TaskTags.validate_tag t = Except.ok ())
    (ht : TaskTags.validate_tag t1 = Except.error msg) :
    firstTagError (pre ++ t1 :: post) = some msg := by
  induction pre with
  | nil =>
    simp only [List.nil_append, firstTagError, ht]
  | cons p rest ih =>
    have hp := hpre p (List.mem_cons_self _ _)
    simp only [List.cons_append, firstTagError, hp]
    exact ih (fun t htm => hpre t (List.mem_cons_of_mem _ htm))

/-- Claim C4 (counterexample): a field map whose tags list has two failing
tags gets a single wrapped error for the first of them, not one error per
failing tag. -/
theorem validate_single_tag_error_counterexample :
    Task.validate [("title", Value.vstr "x"),
        ("tags", Value.vlist ["a b", "c d"])]
      = ["Invalid tag: Tag contains invalid characters"] ∧
    (∃ e, TaskTags.validate_tag "a b" = Except.error e) ∧
    (∃ e, TaskTags.validate_tag "c d" = Except.error e) := by
  refine ⟨by decide, ⟨"Tag contains invalid characters", by decide⟩,
    ⟨"Tag contains invalid characters", by decide⟩⟩

theorem task_validate_parts (data : Dict) :
    Task.validate data =
      (if truthy (pyGet data "title") = true then []
        else ["Title is required"]) ++
      ((if truthy (pyGet data "status") = true ∧
            pyGet data "status" ∉ STATUS_LIST then
          ["Status must be one of: pending, in_progress, completed"]
        else []) ++
        (if ahasKey data "tags" = true ∧ pyGet data "tags" ≠ Value.vnone then
          (match pyGet data "tags" with
            | Value.vlist tags =>
              (match firstTagError tags with
                | some msg => ["Invalid tag: " ++ msg]
                | none => [])
            | _ => ["Tags must be a list"])
        else [])) := by
  unfold Task.validate
  rw [List.append_assoc]

/-- Claim C4 (amended): validation reports only the first failing tag —
one error string wrapping that tag's underlying message, alongside at most
the title and status errors — and the error list is empty exactly when the
title is truthy, a supplied (truthy) status is one of the three enum
values, and a present non-null tags entry is a list all of whose tags pass
tag validation. -/
theorem task_validate_amended (data : Dict) :
    (Task.validate data = [] ↔
      (truthy (pyGet data "title") = true ∧
        (truthy (pyGet data "status") = true →
          pyGet data "status" ∈ STATUS_LIST) ∧
        ((ahasKey data "tags" = true ∧ pyGet data "tags" ≠ Value.vnone) →
          ∃ l, pyGet data "tags" = Value.vlist l ∧
            ∀ t ∈ l, TaskTags.validate_tag t = Except.ok ()))) ∧
    (∀ l pre t1 post msg,
      ahasKey data "tags" = true →
      pyGet data "tags" = Value.vlist l →
      l = pre ++ t1 :: post →
      (∀ t ∈ pre, TaskTags.validate_tag t = Except.ok ()) →
      TaskTags.validate_tag t1 = Except.error msg →
      ∃ base, Task.validate data = base ++ ["Invalid tag: " ++ msg] ∧
        base ⊆ ["Title is required",
          "Status must be one of: pending, in_progress, completed"]) := by
  constructor
  · rw [task_validate_parts data, List.append_eq_nil, List.append_eq_nil]
    constructor
    · rintro ⟨h1, h2, h3⟩
      refine ⟨?_, ?_, ?_⟩
      · by_cases ht : truthy (pyGet data "title") = true
        · exact ht
        · rw [if_neg ht] at h1
          simp at h1
      · intro hs
        by_cases hin : pyGet data "status" ∈ STATUS_LIST
        · exact hin
        · rw [if_pos ⟨hs, hin⟩] at h2
          simp at h2
      · intro hc
        rw [if_pos hc] at h3
        cases hv : pyGet data "tags" with
        | vlist l =>
          simp only [hv] at h3
          refine ⟨l, rfl, ?_⟩
          rw [← firstTagError_eq_none]
          cases hf : firstTagError l with
          | none => rfl
          | some msg =>
            simp only [hf] at h3
            exact absurd h3 (by simp)
        | vstr s =>
          simp only [hv] at h3
          exact absurd h3 (by simp)
        | vtime n =>
          simp only [hv] at h3
          exact absurd h3 (by simp)
        | vbool b =>
          simp only [hv] at h3
          exact absurd h3 (by simp)
        | vnone => exact absurd hv hc.2
    · rintro ⟨h1, h2, h3⟩
      have hns : ¬ (truthy (pyGet data "status") = true ∧
          pyGet data "status" ∉ STATUS_LIST) :=
        fun hcon => hcon.2 (h2 hcon.1)
      refine ⟨by rw [if_pos h1], by rw [if_neg hns], ?_⟩
      by_cases hc : ahasKey data "tags" = true ∧
          pyGet data "tags" ≠ Value.vnone
      · rw [if_pos hc]
        obtain ⟨l, hl, hall⟩ := h3 hc
        simp only [hl, (firstTagError_eq_none l).mpr hall]
      · rw [if_neg hc]
  · intro l pre t1 post msg hk hl hsplit hpre ht
    have hne : pyGet data "tags" ≠ Value.vnone := by
      rw [hl]
      intro hc
      cases hc
    have hf : firstTagError l = some msg := by
      rw [hsplit]
      exact firstTagError_first pre t1 post msg hpre ht
    have he3 : (if ahasKey data "tags" = true ∧
          pyGet data "tags" ≠ Value.vnone then
        (match pyGet data "tags" with
          | Value.vlist tags =>
            (match firstTagError tags with
              | some msg2 => ["Invalid tag: " ++ msg2]
              | none => [])
          | _ => ["Tags must be a list"])
      else []) = ["Invalid tag: " ++ msg] := by
      rw [if_pos ⟨hk, hne⟩]
      simp only [hl, hf]
    refine ⟨(if truthy (pyGet data "title") = true then []
        else ["Title is required"]) ++
      (if truthy (pyGet data "status") = true ∧
          pyGet data "status" ∉ STATUS_LIST then
        ["Status must be one of: pending, in_progress, completed"]
      else []), ?_, ?_⟩
    · rw [task_validate_parts data, he3, List.append_assoc]
    · intro x hx
      rcases List.mem_append.mp hx with hx2 | hx2
      · by_cases ht2 : truthy (pyGet data "title") = true
        · rw [if_pos ht2] at hx2
          simp at hx2
        · rw [if_neg ht2] at hx2
          rcases List.mem_singleton.mp hx2 with rfl
          exact List.mem_cons_self _ _
      · by_cases hs2 : truthy (pyGet data "status") = true ∧
            pyGet data "status" ∉ STATUS_LIST
        · rw [if_pos hs2] at hx2
          rcases List.mem_singleton.mp hx2 with rfl
          exact List.mem_cons_of_mem _ (List.mem_cons_self _ _)
        · rw [if_neg hs2] at hx2
          simp at hx2

/-- Witness for `task_validate_amended` at a concrete field map with one
valid and two invalid tags, and at a tag-free valid map. -/
theorem task_validate_amended_check :
    (∃ base, Task.validate [("title", Value.vstr "x"),
        ("tags", Value.vlist ["ok", "a b", "zz"])]
      = base ++ ["Invalid tag: " ++ "Tag contains invalid characters"] ∧
      base ⊆ ["Title is required",
        "Status must be one of: pending, in_progress, completed"]) ∧
    Task.validate [("title", Value.vstr "x")] = [] := by
  constructor
  · exact (task_validate_amended [("title", Value.vstr "x"),
        ("tags", Value.vlist ["ok", "a b", "zz"])]).2
        ["ok", "a b", "zz"] ["ok"] "a b" ["zz"]
        "Tag contains invalid characters" (by decide) (by decide) (by decide)
        (by decide) (by decide)
  · exact (task_validate_amended [("title", Value.vstr "x")]).1.mpr
      ⟨by decide, fun hs => absurd hs (by decide),
        fun hc => absurd hc.1 (by decide)⟩

/-- Claim C5 (counterexample): with a clock that advances between the two
`datetime.now` calls inside `create`, the produced record's `created_at`
and `updated_at` differ — the code takes two separate readings, not one
shared instant. -/
theorem create_two_clock_reads_counterexample :
    alookup? (Task.create (Value.vstr "t") Value.vnone
        (Value.vstr "pending") Value.vnone (fun n => n)) "created_at"
      = some (Value.vtime 0) ∧
    alookup? (Task.create (Value.vstr "t") Value.vnone
        (Value.vstr "pending") Value.vnone (fun n => n)) "updated_at"
      = some (Value.vtime 1) ∧
    Value.vtime 0 ≠ Value.vtime 1 := by
  refine ⟨by decide, by decide, by decide⟩

/-- Claim C5 (amended): a default `create` call sets `created_at` to the
first clock reading and `updated_at` to the second (equal only when the
clock does not advance between the calls), defaults `status` to pending,
`tags` to the empty list and `description` to the empty string, and stores
no `archived` field. -/
theorem create_defaults_amended (title : Value) (clock : Nat → Nat) :
    alookup? (Task.create title Value.vnone (Value.vstr "pending")
        Value.vnone clock) "status" = some (Value.vstr "pending") ∧
    alookup? (Task.create title Value.vnone (Value.vstr "pending")
        Value.vnone clock) "tags" = some (Value.vlist []) ∧
    alookup? (Task.create title Value.vnone (Value.vstr "pending")
        Value.vnone clock) "description" = some (Value.vstr "") ∧
    alookup? (Task.create title Value.vnone (Value.vstr "pending")
        Value.vnone clock) "created_at" = some (Value.vtime (clock 0)) ∧
    alookup? (Task.create title Value.vnone (Value.vstr "pending")
        Value.vnone clock) "updated_at" = some (Value.vtime (clock 1)) ∧
    ahasKey (Task.create title Value.vnone (Value.vstr "pending")
        Value.vnone clock) "archived" = false := by
  refine ⟨rfl, rfl, rfl, rfl, rfl, rfl⟩

theorem aset_append_of_hasKey_false {α : Type} (d : List (String × α))
    (k : String) (v : α) (h : ahasKey d k = false) :
    aset d k v = d ++ [(k, v)] := by
  unfold aset
  rw [h]
  simp

/-- Claim C7: `update_fields` keeps exactly the allow-listed entries whose
value is not null, stamps a fresh `updated_at`, and drops everything else —
in particular an `id` or `created_at` key present in the input never
reaches the output. -/
theorem update_fields_allowlist (data : Dict) (now : Nat)
    (hnd : NodupKeys data) (k : String) :
    alookup? (Task.update_fields data now) k =
      if k = "updated_at" then some (Value.vtime now)
      else if k ∈ allowed_fields then
        (match alookup? data k with
          | some v => if v = Value.vnone then none else some v
          | none => none)
      else none := by
  unfold Task.update_fields
  have hua : alookup? (data.filter (fun kv =>
      allowed_fields.contains kv.1 && !(kv.2 == Value.vnone)))
      "updated_at" = none := by
    rw [alookup_filter data _ "updated_at" hnd]
    cases hq : alookup? data "updated_at" with
    | none => rfl
    | some v =>
      have hcon : allowed_fields.contains "updated_at" = false := by decide
      simp only [hcon, Bool.false_and]
      rfl
  have hk2 : ahasKey (data.filter (fun kv =>
      allowed_fields.contains kv.1 && !(kv.2 == Value.vnone)))
      "updated_at" = false := by
    unfold ahasKey
    rw [hua]
    rfl
  rw [aset_append_of_hasKey_false _ _ _ hk2, alookup_append]
  by_cases hk : k = "updated_at"
  · subst hk
    rw [hua, if_pos rfl]
    simp [alookup?]
  · have h1 : alookup? [("updated_at", Value.vtime now)] k = none := by
      have hne : ¬ ("updated_at" = k) := fun hc => hk hc.symm
      simp [alookup?, hne]
    rw [alookup_filter data _ k hnd, if_neg hk]
    cases hq : alookup? data k with
    | none =>
      by_cases hm : k ∈ allowed_fields
      · rw [if_pos hm]
        simp [h1]
      · rw [if_neg hm]
        simp [h1]
    | some v =>
      by_cases hm : k ∈ allowed_fields
      · rw [if_pos hm]
        by_cases hv : v = Value.vnone
        · have hp : (allowed_fields.contains k && !(v == Value.vnone))
              = false := by
            rw [hv]
            simp
          simp [hp, h1, hv]
        · have hp : (allowed_fields.contains k && !(v == Value.vnone))
              = true := by
            have hcon : allowed_fields.contains k = true := by simp [hm]
            rw [hcon]
            simp [hv]
          simp [hp, hv, hm]
      · rw [if_neg hm]
        have hcon : allowed_fields.contains k = false := by
          simp [hm]
        simp [hcon, h1, hm]

/-- Witness for `update_fields_allowlist` on the spec's example: `id` and
`created_at` are dropped, `title` kept, `updated_at` freshly stamped. -/
theorem update_fields_allowlist_check :
    alookup? (Task.update_fields [("title", Value.vstr "x"),
        ("id", Value.vstr "should-be-dropped"),
        ("created_at", Value.vtime 5)] 7) "id" = none ∧
    alookup? (Task.update_fields [("title", Value.vstr "x"),
        ("id", Value.vstr "should-be-dropped"),
        ("created_at", Value.vtime 5)] 7) "created_at" = none ∧
    alookup? (Task.update_fields [("title", Value.vstr "x"),
        ("id", Value.vstr "should-be-dropped"),
        ("created_at", Value.vtime 5)] 7) "title" = some (Value.vstr "x") ∧
    alookup? (Task.update_fields [("title", Value.vstr "x"),
        ("id", Value.vstr "should-be-dropped"),
        ("created_at", Value.vtime 5)] 7) "updated_at"
      = some (Value.vtime 7) := by
  have h := fun k => update_fields_allowlist [("title", Value.vstr "x"),
    ("id", Value.vstr "should-be-dropped"),
    ("created_at", Value.vtime 5)] 7 (by decide) k
  refine ⟨?_, ?_, ?_, ?_⟩
  · rw [h "id", if_neg (by decide), if_neg (by decide)]
  · rw [h "created_at", if_neg (by decide), if_neg (by decide)]
  · rw [h "title", if_neg (by decide), if_pos (by decide)]
    decide
  · rw [h "updated_at", if_pos rfl]

theorem bulkLoop_all_valid (ids : List String) (db : DB) (count : Nat)
    (hval : ∀ t ∈ ids, isValidObjectId t = true) :
    ∃ db2, bulkLoop ids db count
        = BulkResult.ok db2 (count + (db.length - db2.length)) ∧
      db2.length ≤ db.length := by
  induction ids generalizing db count with
  | nil => exact ⟨db, by simp [bulkLoop], Nat.le_refl _⟩
  | cons tid rest ih =>
    have hv := hval tid (List.mem_cons_self _ _)
    have hrest : ∀ t ∈ rest, isValidObjectId t = true :=
      fun t ht => hval t (List.mem_cons_of_mem _ ht)
    unfold bulkLoop
    rw [if_pos hv]
    unfold deleteOne
    by_cases hm : tid ∈ db
    · rw [if_pos hm]
      obtain ⟨db2, hloop, hlen⟩ := ih (db.erase tid) (count + 1) hrest
      have he : (db.erase tid).length = db.length - 1 :=
        List.length_erase_of_mem hm
      have hpos : 0 < db.length :=
        List.length_pos.mpr (List.ne_nil_of_mem hm)
      refine ⟨db2, ?_, by omega⟩
      rw [hloop]
      congr 1
      omega
    · rw [if_neg hm]
      obtain ⟨db2, hloop, hlen⟩ := ih db (count + 0) hrest
      refine ⟨db2, ?_, hlen⟩
      rw [hloop]
      simp

theorem bulkLoop_first_invalid (good : List String) (bad : String)
    (rest : List String) (db : DB) (count : Nat)
    (hgood : ∀ t ∈ good, isValidObjectId t = true)
    (hbad : isValidObjectId bad = false) :
    bulkLoop (good ++ bad :: rest) db count =
      BulkResult.invalidIdRaised
        (good.foldl (fun d t => (deleteOne d t).1) db) := by
  induction good generalizing db count with
  | nil =>
    simp only [List.nil_append, bulkLoop, List.foldl_nil]
    rw [if_neg (by rw [hbad]; simp)]
  | cons g grest ih =>
    have hg := hgood g (List.mem_cons_self _ _)
    simp only [List.cons_append, bulkLoop, List.foldl_cons]
    rw [if_pos hg]
    exact ih _ _ (fun t ht => hgood t (List.mem_cons_of_mem _ ht))

theorem pyGet_some_of_vlist (data : Dict) (k : String) (l : List String)
    (h : pyGet data k = Value.vlist l) :
    alookup? data k = some (Value.vlist l) := by
  unfold pyGet at h
  cases hq : alookup? data k with
  | none =>
    rw [hq] at h
    cases h
  | some v =>
    rw [hq] at h
    simp only [Option.getD_some] at h
    rw [h]

/-- Claim C8: bulk delete responds 400 when `task_ids` is absent from the
body; with a list of well-formed identifiers it deletes sequentially and
reports the number of records actually removed; the first malformed
identifier in the list raises out of the handler, aborting the batch with
the earlier deletions already applied and no count reported. -/
theorem bulk_delete_behavior (data : Dict) (db : DB) :
    (ahasKey data "task_ids" = false →
      bulk_delete_tasks data db = BulkResult.missingField) ∧
    (∀ ids, pyGet data "task_ids" = Value.vlist ids →
      (∀ t ∈ ids, isValidObjectId t = true) →
      ∃ db2, bulk_delete_tasks data db
          = BulkResult.ok db2 (db.length - db2.length) ∧
        db2.length ≤ db.length) ∧
    (∀ good bad rest,
      pyGet data "task_ids" = Value.vlist (good ++ bad :: rest) →
      (∀ t ∈ good, isValidObjectId t = true) →
      isValidObjectId bad = false →
      bulk_delete_tasks data db = BulkResult.invalidIdRaised
        (good.foldl (fun d t => (deleteOne d t).1) db)) := by
  refine ⟨?_, ?_, ?_⟩
  · intro h
    unfold bulk_delete_tasks
    rw [if_pos (by simp [h])]
  · intro ids hl hval
    have hsome := pyGet_some_of_vlist data "task_ids" ids hl
    have hk : ahasKey data "task_ids" = true := by
      unfold ahasKey
      rw [hsome]
      rfl
    unfold bulk_delete_tasks
    rw [if_neg (by simp [hk])]
    simp only [hl]
    obtain ⟨db2, hloop, hlen⟩ := bulkLoop_all_valid ids db 0 hval
    refine ⟨db2, ?_, hlen⟩
    rw [hloop]
    congr 1
    omega
  · intro good bad rest hl hgood hbad
    have hsome := pyGet_some_of_vlist data "task_ids" _ hl
    have hk : ahasKey data "task_ids" = true := by
      unfold ahasKey
      rw [hsome]
      rfl
    unfold bulk_delete_tasks
    rw [if_neg (by simp [hk])]
    simp only [hl]
    exact bulkLoop_first_invalid good bad rest db 0 hgood hbad

/-- Witness for `bulk_delete_behavior`: a body without `task_ids`, a batch
of two well-formed identifiers, and a batch whose second identifier is
malformed. -/
theorem bulk_delete_behavior_check :
    bulk_delete_tasks [("other", Value.vnone)]
        ["0123456789abcdef01234567"] = BulkResult.missingField ∧
    (∃ db2, bulk_delete_tasks
        [("task_ids", Value.vlist ["0123456789abcdef01234567",
          "aaaaaaaaaaaaaaaaaaaaaaaa"])]
        ["0123456789abcdef01234567", "ffffffffffffffffffffffff"]
        = BulkResult.ok db2 (2 - db2.length) ∧ db2.length ≤ 2) ∧
    bulk_delete_tasks
        [("task_ids", Value.vlist ["0123456789abcdef01234567", "xyz"])]
        ["0123456789abcdef01234567", "ffffffffffffffffffffffff"]
      = BulkResult.invalidIdRaised ["ffffffffffffffffffffffff"] := by
  refine ⟨?_, ?_, ?_⟩
  · exact (bulk_delete_behavior [("other", Value.vnone)]
      ["0123456789abcdef01234567"]).1 (by decide)
  · exact (bulk_delete_behavior
      [("task_ids", Value.vlist ["0123456789abcdef01234567",
        "aaaaaaaaaaaaaaaaaaaaaaaa"])]
      ["0123456789abcdef01234567", "ffffffffffffffffffffffff"]).2.1
      ["0123456789abcdef01234567", "aaaaaaaaaaaaaaaaaaaaaaaa"]
      (by decide) (by decide)
  · have h := (bulk_delete_behavior
      [("task_ids", Value.vlist ["0123456789abcdef01234567", "xyz"])]
      ["0123456789abcdef01234567", "ffffffffffffffffffffffff"]).2.2
      ["0123456789abcdef01234567"] "xyz" [] (by decide) (by decide)
      (by decide)
    rw [h]
    decide

theorem heapLe_refl (h : Heap) : HeapLe h h :=
  ⟨Nat.le_refl _, Nat.le_refl _, fun _ _ => rfl, fun _ _ => rfl⟩

theorem heapLe_trans {h1 h2 h3 : Heap} (a : HeapLe h1 h2)
    (b : HeapLe h2 h3) : HeapLe h1 h3 :=
  ⟨Nat.le_trans a.dlen b.dlen, Nat.le_trans a.llen b.llen,
    fun i hi => (b.dget i (Nat.lt_of_lt_of_le hi a.dlen)).trans (a.dget i hi),
    fun i hi => (b.lget i (Nat.lt_of_lt_of_le hi a.llen)).trans (a.lget i hi)⟩

theorem heapLe_allocDict (h : Heap) (d : HDict) :
    HeapLe h (h.allocDict d).1 := by
  refine ⟨?_, Nat.le_refl _, ?_, fun i hi => rfl⟩
  · simp [Heap.allocDict]
  · intro i hi
    simp only [Heap.allocDict]
    rw [List.getElem?_append, if_pos hi]

theorem heapLe_allocList (h : Heap) (l : List String) :
    HeapLe h (h.allocList l).1 := by
  refine ⟨Nat.le_refl _, ?_, fun i hi => rfl, ?_⟩
  · simp [Heap.allocList]
  · intro i hi
    simp only [Heap.allocList]
    rw [List.getElem?_append, if_pos hi]

theorem heapLe_setDictKey {h0 h : Heap} (hle : HeapLe h0 h) (a : Nat)
    (k : String) (v : HVal) (ha : h0.dicts.length ≤ a) :
    HeapLe h0 (h.setDictKey a k v) := by
  refine ⟨?_, hle.llen, ?_, hle.lget⟩
  · simp only [Heap.setDictKey, List.length_set]
    exact hle.dlen
  · intro i hi
    simp only [Heap.setDictKey]
    rw [List.getElem?_set_ne (Nat.ne_of_gt (Nat.lt_of_lt_of_le hi ha))]
    exact hle.dget i hi

theorem heapLe_setList {h0 h : Heap} (hle : HeapLe h0 h) (a : Nat)
    (l : List String) (ha : h0.lists.length ≤ a) :
    HeapLe h0 (h.setList a l) := by
  refine ⟨hle.dlen, ?_, hle.dget, ?_⟩
  · simp only [Heap.setList, List.length_set]
    exact hle.llen
  · intro i hi
    simp only [Heap.setList]
    rw [List.getElem?_set_ne (Nat.ne_of_gt (Nat.lt_of_lt_of_le hi ha))]
    exact hle.lget i hi

theorem readDict_eq_of_heapLe {h h2 : Heap} (hle : HeapLe h h2) (a : Nat)
    (ha : a < h.dicts.length) (hwf : dictRefsWF h a) :
    h2.readDict a = h.readDict a := by
  have hd : h2.getDict a = h.getDict a := by
    unfold Heap.getDict
    rw [List.getD_eq_getElem?_getD, List.getD_eq_getElem?_getD, hle.dget a ha]
  unfold Heap.readDict
  rw [hd]
  apply List.map_congr_left
  intro kv hm
  obtain ⟨k0, hv⟩ := kv
  cases hv with
  | hlistRef la =>
    have hla : la < h.lists.length := hwf k0 la hm
    simp only [Heap.readVal, Heap.getList]
    rw [List.getD_eq_getElem?_getD, List.getD_eq_getElem?_getD,
      hle.lget la hla]
  | hstr s => rfl
  | htime n => rfl
  | hbool b => rfl
  | hnone => rfl

theorem add_tag_st_tail_heapLe (h h2 : Heap) (R : Nat) (ntag : String)
    (hle : HeapLe h h2) (hR : h.dicts.length ≤ R) :
    HeapLe h ((match alookup? (h2.getDict R) "tags" with
      | some (HVal.hlistRef la) =>
        let tags0 := h2.getList la
        let p3 := h2.allocList tags0
        let h3 := p3.1
        let copyAddr := p3.2
        let h4 := if ntag ∈ tags0 then h3
          else h3.setList copyAddr (tags0 ++ [ntag])
        let h5 := h4.setDictKey R "tags" (HVal.hlistRef copyAddr)
        (h5, Except.ok R)
      | some _ => (h2, Except.error PyError.attributeError)
      | none => (h2, Except.error PyError.attributeError) :
        Heap × Except PyError Nat)).1 := by
  cases alookup? (h2.getDict R) "tags" with
  | none => exact hle
  | some hval =>
    cases hval with
    | hlistRef la =>
      simp only
      have le3 : HeapLe h (h2.allocList (h2.getList la)).1 :=
        heapLe_trans hle (heapLe_allocList _ _)
      have le4 : HeapLe h (if ntag ∈ h2.getList la then
          (h2.allocList (h2.getList la)).1
        else ((h2.allocList (h2.getList la)).1).setList
          (h2.allocList (h2.getList la)).2
          (h2.getList la ++ [ntag])) := by
        by_cases hm : ntag ∈ h2.getList la
        · rw [if_pos hm]
          exact le3
        · rw [if_neg hm]
          exact heapLe_setList le3 _ _ hle.llen
      exact heapLe_setDictKey le4 _ _ _ hR
    | hstr s => exact hle
    | htime n => exact hle
    | hbool b => exact hle
    | hnone => exact hle

theorem remove_tag_st_tail_heapLe (h h2 : Heap) (R : Nat) (ntag : String)
    (hle : HeapLe h h2) (hR : h.dicts.length ≤ R) :
    HeapLe h ((match alookup? (h2.getDict R) "tags" with
      | some (HVal.hlistRef la) =>
        let tags0 := h2.getList la
        let p3 := h2.allocList tags0
        let h3 := p3.1
        let copyAddr := p3.2
        let h4 := if ntag ∈ tags0 then
            h3.setList copyAddr (tags0.erase ntag)
          else h3
        let h5 := h4.setDictKey R "tags" (HVal.hlistRef copyAddr)
        (h5, Except.ok R)
      | some _ => (h2, Except.error PyError.attributeError)
      | none => (h2, Except.error PyError.attributeError) :
        Heap × Except PyError Nat)).1 := by
  cases alookup? (h2.getDict R) "tags" with
  | none => exact hle
  | some hval =>
    cases hval with
    | hlistRef la =>
      simp only
      have le3 : HeapLe h (h2.allocList (h2.getList la)).1 :=
        heapLe_trans hle (heapLe_allocList _ _)
      have le4 : HeapLe h (if ntag ∈ h2.getList la then
          ((h2.allocList (h2.getList la)).1).setList
            (h2.allocList (h2.getList la)).2
            ((h2.getList la).erase ntag)
        else (h2.allocList (h2.getList la)).1) := by
        by_cases hm : ntag ∈ h2.getList la
        · rw [if_pos hm]
          exact heapLe_setList le3 _ _ hle.llen
        · rw [if_neg hm]
          exact le3
      exact heapLe_setDictKey le4 _ _ _ hR
    | hstr s => exact hle
    | htime n => exact hle
    | hbool b => exact hle
    | hnone => exact hle

theorem add_tag_st_heapLe (h : Heap) (a : Nat) (tag : String) :
    HeapLe h (TaskTags.add_tag_st h a tag).1 := by
  unfold TaskTags.add_tag_st
  by_cases he : tag = ""
  · rw [if_pos he]
    exact heapLe_refl h
  · rw [if_neg he]
    cases hv : TaskTags.validate_tag tag with
    | error e => exact heapLe_refl h
    | ok u =>
      cases u
      by_cases hk : ahasKey ((h.allocDict (h.getDict a)).1.getDict
          (h.allocDict (h.getDict a)).2) "tags" = true
      · simp only [if_pos hk]
        exact add_tag_st_tail_heapLe h _ _ _ (heapLe_allocDict h _)
          (Nat.le_refl _)
      · simp only [if_neg hk]
        exact add_tag_st_tail_heapLe h _ _ _
          (heapLe_setDictKey (heapLe_trans (heapLe_allocDict h _)
            (heapLe_allocList _ _)) _ _ _ (Nat.le_refl _))
          (Nat.le_refl _)

theorem remove_tag_st_heapLe (h : Heap) (a : Nat) (tag : String) :
    HeapLe h (TaskTags.remove_tag_st h a tag).1 := by
  unfold TaskTags.remove_tag_st
  by_cases he : tag = ""
  · rw [if_pos he]
    exact heapLe_refl h
  · rw [if_neg he]
    by_cases hk : ahasKey ((h.allocDict (h.getDict a)).1.getDict
        (h.allocDict (h.getDict a)).2) "tags" = true
    · rw [if_neg (by simp [hk])]
      exact remove_tag_st_tail_heapLe h _ _ _ (heapLe_allocDict h _)
        (Nat.le_refl _)
    · rw [if_pos (by simp [hk])]
      exact heapLe_setDictKey (heapLe_trans (heapLe_allocDict h _)
        (heapLe_allocList _ _)) _ _ _ (Nat.le_refl _)

/-- Claim C3: neither tag operation mutates the record passed in: after
`add_tag` or `remove_tag` runs against the heap, reading the input record
back (its bindings and the contents of its tags list) gives exactly the
pre-call value, whatever the tag and outcome; only freshly allocated
objects are ever written. -/
theorem tag_ops_preserve_input (h : Heap) (a : Nat) (tag : String)
    (ha : a < h.dicts.length) (hwf : dictRefsWF h a) :
    Heap.readDict (TaskTags.add_tag_st h a tag).1 a = h.readDict a ∧
    Heap.readDict (TaskTags.remove_tag_st h a tag).1 a = h.readDict a :=
  ⟨readDict_eq_of_heapLe (add_tag_st_heapLe h a tag) a ha hwf,
    readDict_eq_of_heapLe (remove_tag_st_heapLe h a tag) a ha hwf⟩

/-- Witness for `tag_ops_preserve_input` on a one-record heap whose record
holds one tag. -/
theorem tag_ops_preserve_input_check :
    Heap.readDict (TaskTags.add_tag_st
        ⟨[[("tags", HVal.hlistRef 0)]], [["a"]]⟩ 0 "b").1 0
      = Heap.readDict ⟨[[("tags", HVal.hlistRef 0)]], [["a"]]⟩ 0 ∧
    Heap.readDict (TaskTags.remove_tag_st
        ⟨[[("tags", HVal.hlistRef 0)]], [["a"]]⟩ 0 "a").1 0
      = Heap.readDict ⟨[[("tags", HVal.hlistRef 0)]], [["a"]]⟩ 0 := by
  have hwf : dictRefsWF ⟨[[("tags", HVal.hlistRef 0)]], [["a"]]⟩ 0 := by
    intro k la hm
    have h1 := List.mem_singleton.mp hm
    rw [Prod.mk.injEq] at h1
    injection h1.2 with h2
    rw [h2]
    decide
  constructor
  · exact (tag_ops_preserve_input ⟨[[("tags", HVal.hlistRef 0)]], [["a"]]⟩
      0 "b" (by decide) hwf).1
  · exact (tag_ops_preserve_input ⟨[[("tags", HVal.hlistRef 0)]], [["a"]]⟩
      0 "a" (by decide) hwf).2

